import Mathlib

/-!
Verification of the redspot task engine and its built-in ink compile
pipeline.  The compile pipeline (subtasks `TASK_COMPILE_INK_PRE`,
`TASK_COMPILE_INK_INPUT`, `TASK_COMPILE_INK_EXEC`,
`TASK_COMPILE_INK_OUTPUT` and the top level `TASK_COMPILE_INK`) is
embedded from `src/tasks/compile.ts`.  The task registry, override
chaining, argument resolution and the task-definition builder are only
declared (as types) under `src/packages/redspot-core/src/types/runtime.ts`;
their implementations are modelled from the specification where noted.
-/

namespace Redspot

/-- Typed task-argument values. -/
inductive TValue where
  | vStr (s : String)
  | vBool (b : Bool)
  | vInt (n : Int)
  | vSeq (vs : List TValue)

/-- The engine's error taxonomy (spec section 7 and the errors raised in
`src/tasks/compile.ts`). -/
inductive RSError where
  | unrecognizedTask (name : String)
  | missingRequiredArgument (name : String)
  | invalidArgument (argName : String) (expectedType : String)
  | runSuperNotDefined
  | duplicateArtifactName (path1 path2 : String)
  | inkEnvError (version : String)
  | requiredAfterOptionalPositional (name : String)
  | duplicateParamName (name : String)
  | variadicNotLast (name : String)
deriving DecidableEq, Repr

/-! ## The ink compile pipeline, embedded from `src/tasks/compile.ts` -/

/-- Compiler input, as consumed by the pipeline (`InkInput` from
`compiler/ink/compilerInput`): only its `sources` list is read by the
embedded stages. -/
structure InkInput where
  sources : List String
deriving DecidableEq, Repr

/-- One record of the compiler's output (`InkOutput` from
`compiler/ink/compile`): a contract `name` and the path `contract` of the
produced artifact. -/
structure InkOutput where
  name : String
  contract : String
deriving DecidableEq, Repr

/-- The `source` sub-object of a contract ABI JSON record; `wasm` is the
large binary field deleted for the `.json` artifact. -/
structure AbiSource where
  wasm : Option String
  restSource : String
deriving DecidableEq, Repr

/-- A contract ABI JSON record as read from disk by the output stage. -/
structure AbiJSON where
  source : AbiSource
  restFields : String
deriving DecidableEq, Repr

/-- Embeds `delete abiJSON.source.wasm` of the output stage. -/
def stripWasm (a : AbiJSON) : AbiJSON :=
  { a with source := { a.source with wasm := none } }

/-- Models `path.resolve(dir, file)` as used by the output stage. -/
def resolvePath (dir file : String) : String :=
  dir ++ "/" ++ file

/-- File-system and console effects performed by the output stage. -/
inductive FsEvent where
  | ensureDir (dir : String)
  | writeJSON (path : String) (content : AbiJSON)
  | logLine (msg : String)
deriving DecidableEq, Repr

def FsEvent.isWrite : FsEvent → Bool
  | .writeJSON _ _ => true
  | _ => false

/-- The success message logged by the output stage (colouring dropped). -/
def successMsg (dir : String) : String :=
  "🎉  Compile successfully! You can find all artifacts at " ++ dir

/-- The two writes the output stage performs for one compiler output
record: the full record to `<name>.contract` and the record with
`source.wasm` deleted to `<name>.json`. -/
def writesFor (rd : String → AbiJSON) (dir : String) (t : InkOutput) :
    List FsEvent :=
  [FsEvent.writeJSON (resolvePath dir (t.name ++ ".contract")) (rd t.contract),
   FsEvent.writeJSON (resolvePath dir (t.name ++ ".json")) (stripWasm (rd t.contract))]

/-- The `for (const target of output)` loop of `TASK_COMPILE_INK_OUTPUT`:
`names`/`paths` accumulate the names and contract paths already processed;
a record whose name is already in `names` aborts with
`DuplicateArtifactNameError` carrying `paths[names.indexOf(target.name)]`
and `target.contract`; otherwise the record's two artifact files are
written and the record is appended.  Returns the trace of effects
performed and the error, if any. -/
def outputLoop (rd : String → AbiJSON) (dir : String) :
    List InkOutput → List String → List String →
    List FsEvent × Option RSError
  | [], _, _ => ([], none)
  | t :: rest, names, paths =>
    if names.contains t.name then
      ([], some (RSError.duplicateArtifactName
          (paths.getD (names.indexOf t.name) "") t.contract))
    else
      let r := outputLoop rd dir rest (names ++ [t.name]) (paths ++ [t.contract])
      (writesFor rd dir t ++ r.1, r.2)

/-- The action of subtask `TASK_COMPILE_INK_OUTPUT`: returns immediately on
an empty source list; otherwise ensures the artifact directory, runs the
output loop, and on success logs a blank line and the success message. -/
def taskCompileInkOutput (rd : String → AbiJSON) (dir : String)
    (input : InkInput) (output : List InkOutput) :
    List FsEvent × Option RSError :=
  if input.sources.length == 0 then ([], none)
  else
    match outputLoop rd dir output [] [] with
    | (evs, some e) => (FsEvent.ensureDir dir :: evs, some e)
    | (evs, none) =>
        (FsEvent.ensureDir dir :: evs ++
          [FsEvent.logLine "", FsEvent.logLine (successMsg dir)], none)

/-- The action of subtask `TASK_COMPILE_INK_EXEC`: returns immediately
(without invoking the compiler) on an empty source list; otherwise invokes
the external compiler once.  The first component is the trace of compiler
invocations, the second the stage's return value (`none` models the
`undefined` of the early return). -/
def taskCompileInkExec (compileFn : InkInput → Bool → List InkOutput)
    (verbose : Bool) (input : InkInput) :
    List (InkInput × Bool) × Option (List InkOutput) :=
  if input.sources.length == 0 then ([], none)
  else ([(input, verbose)], some (compileFn input verbose))

/-- The action of subtask `TASK_COMPILE_INK_PRE`: asks the external
environment check `checkEnv` for version `0.8.0` and raises
`INK_ENV_ERROR` reporting `v0.8.0` when the environment is invalid.
`checkEnv` (a collaborator outside the embedded source) is a parameter. -/
def taskCompileInkPre (checkEnv : String → Bool) : Option RSError :=
  if !(checkEnv "0.8.0") then some (RSError.inkEnvError "v0.8.0")
  else none

/-! ### The top-level `TASK_COMPILE_INK` action -/

/-- Names of the compile tasks (`src/tasks/task-names.ts`). -/
inductive TaskName where
  | TASK_COMPILE_INK
  | TASK_COMPILE_INK_PRE
  | TASK_COMPILE_INK_INPUT
  | TASK_COMPILE_INK_EXEC
  | TASK_COMPILE_INK_OUTPUT
deriving DecidableEq, Repr

/-- A stage's return value as forwarded between `run` calls. -/
inductive StageValue where
  | unitV
  | inputV (i : InkInput)
  | outputV (o : Option (List InkOutput))
deriving DecidableEq, Repr

/-- The argument objects the top-level compile action passes to `run`. -/
inductive TaskArg where
  | noArgs
  | sourcePatternArg (sp : List String)
  | execArgs (input : StageValue)
  | outputArgs (input : StageValue) (output : StageValue)
deriving DecidableEq, Repr

/-- An interpretation of the runner's `run` entry point, as seen by a task
action: each call either fails or produces a stage value. -/
abbrev RunInterp : Type :=
  TaskName → TaskArg → Except RSError StageValue

/-- A computation in a task action that may call `run`: given the runner it
yields the trace of `run` calls it performed and its outcome. -/
abbrev RunM (α : Type) : Type :=
  RunInterp → List (TaskName × TaskArg) × Except RSError α

/-- One `await run(name, arg)` call. -/
def runCallM (n : TaskName) (a : TaskArg) : RunM StageValue :=
  fun itp => ([(n, a)], itp n a)

/-- Sequencing of `await`ed calls; a failure aborts the rest. -/
def bindM {α β : Type} (m : RunM α) (f : α → RunM β) : RunM β :=
  fun itp =>
    match m itp with
    | (t, Except.error e) => (t, Except.error e)
    | (t, Except.ok v) =>
      let r := f v itp
      (t ++ r.1, r.2)

/-- The action of the top-level `TASK_COMPILE_INK` task: run the pre
check, gather the compiler input from `sourcePattern`, run the compiler on
that input, and materialize the output from the input and the compiler's
result. -/
def taskCompileInk (sp : List String) : RunM StageValue :=
  bindM (runCallM TaskName.TASK_COMPILE_INK_PRE TaskArg.noArgs) fun _ =>
  bindM (runCallM TaskName.TASK_COMPILE_INK_INPUT (TaskArg.sourcePatternArg sp)) fun input =>
  bindM (runCallM TaskName.TASK_COMPILE_INK_EXEC (TaskArg.execArgs input)) fun output =>
  runCallM TaskName.TASK_COMPILE_INK_OUTPUT (TaskArg.outputArgs input output)

/-! ## The task engine

The engine implementation (builder, registry, override chaining, argument
resolution) is absent from the sources; only its types are declared in
`src/packages/redspot-core/src/types/runtime.ts`.  The definitions below
are therefore modelled from the specification. -/

/-- Modelled from the spec: an `ArgumentType` — a name, a validator, and,
for CLI-capable types, a parser from raw strings (`parse` is `none` for
non-CLI types).  `validate` returning `false` stands for throwing
`InvalidArgumentError`. -/
structure ArgType where
  name : String
  validate : TValue → Bool
  parse : Option (String → Option TValue)

/-- A `ParamDefinition` as declared in `runtime.ts`: name, argument type,
optional default, and the optionality/flag/variadic markers. -/
structure ParamDefinition where
  name : String
  type : ArgType
  defaultValue : Option TValue
  isOptional : Bool
  isFlag : Bool
  isVariadic : Bool

/-- Actions are identified opaquely; executing an action is observable as
its identifier together with the schema-resolved arguments it receives. -/
abbrev Action : Type := Nat

/-- A task declaration: the named/flag parameter schema, the positional
parameter schema, and the action. -/
structure TaskDecl where
  namedParams : List ParamDefinition
  positionalParams : List ParamDefinition
  action : Action

/-- A raw argument value: either a CLI-originated string or an
already-typed value. -/
inductive RValue where
  | str (s : String)
  | typed (v : TValue)

/-- Raw arguments handed to the runner: a map of named arguments and the
positional slice. -/
structure RawArgs where
  named : List (String × RValue)
  positional : List RValue

abbrev ResolvedArgs : Type := List (String × TValue)

/-- Modelled from the spec: resolving one raw value against its parameter
— parse first if the raw value is a string and the type is CLI-capable,
then validate; the first failure aborts with `InvalidArgumentError`. -/
def resolveOne (p : ParamDefinition) (rv : RValue) : Except RSError TValue :=
  match rv with
  | RValue.typed v =>
      if p.type.validate v then Except.ok v
      else Except.error (RSError.invalidArgument p.name p.type.name)
  | RValue.str s =>
      match p.type.parse with
      | some pf =>
          match pf s with
          | some v =>
              if p.type.validate v then Except.ok v
              else Except.error (RSError.invalidArgument p.name p.type.name)
          | none => Except.error (RSError.invalidArgument p.name p.type.name)
      | none =>
          if p.type.validate (TValue.vStr s) then Except.ok (TValue.vStr s)
          else Except.error (RSError.invalidArgument p.name p.type.name)

/-- Modelled from the spec: the rule for a parameter absent from the raw
arguments — substitute its declared default if the parameter is optional
(the substituted value still runs `validate`), else fail with
`MissingRequiredArgumentError` naming the parameter. -/
def resolveAbsent (p : ParamDefinition) : Except RSError TValue :=
  if p.isOptional then
    match p.defaultValue with
    | some d =>
        if p.type.validate d then Except.ok d
        else Except.error (RSError.invalidArgument p.name p.type.name)
    | none => Except.error (RSError.missingRequiredArgument p.name)
  else Except.error (RSError.missingRequiredArgument p.name)

/-- Modelled from the spec: resolution of the named/flag parameters, in
schema order, against the raw named-argument map. -/
def resolveNamed : List ParamDefinition → List (String × RValue) →
    Except RSError ResolvedArgs
  | [], _ => Except.ok []
  | p :: ps, raw =>
    match raw.lookup p.name with
    | some rv => do
        let v ← resolveOne p rv
        let rest ← resolveNamed ps raw
        Except.ok ((p.name, v) :: rest)
    | none => do
        let v ← resolveAbsent p
        let rest ← resolveNamed ps raw
        Except.ok ((p.name, v) :: rest)

/-- Resolution of each element consumed by a variadic parameter. -/
def resolveList (p : ParamDefinition) : List RValue →
    Except RSError (List TValue)
  | [] => Except.ok []
  | r :: rs => do
      let v ← resolveOne p r
      let vs ← resolveList p rs
      Except.ok (v :: vs)

/-- Modelled from the spec: resolution of the positional parameters, in
declared order, consuming the positional slice; a variadic parameter
consumes all remaining positional values into a sequence, and an
exhausted slice falls back to the absent-parameter rule. -/
def resolvePositional : List ParamDefinition → List RValue →
    Except RSError ResolvedArgs
  | [], _ => Except.ok []
  | p :: ps, raws =>
    if p.isVariadic then
      match raws with
      | [] => do
          let v ← resolveAbsent p
          Except.ok [(p.name, v)]
      | _ :: _ => do
          let vs ← resolveList p raws
          Except.ok [(p.name, TValue.vSeq vs)]
    else
      match raws with
      | [] => do
          let v ← resolveAbsent p
          let rest ← resolvePositional ps []
          Except.ok ((p.name, v) :: rest)
      | r :: rest => do
          let v ← resolveOne p r
          let restR ← resolvePositional ps rest
          Except.ok ((p.name, v) :: restR)

/-- Modelled from the spec: full argument resolution against a task
declaration's schema — named/flag parameters first, then positionals. -/
def resolveArgs (decl : TaskDecl) (raw : RawArgs) : Except RSError ResolvedArgs := do
  let n ← resolveNamed decl.namedParams raw.named
  let p ← resolvePositional decl.positionalParams raw.positional
  Except.ok (n ++ p)

/-! ### Registry and override chaining -/

/-- Modelled from the spec: the registry as an explicit ordered list of
declarations per task name — the chain of overrides, base first; the
current definition is the last element. -/
abbrev Registry : Type := List (String × List TaskDecl)

/-- Modelled from the spec: `task`/`subtask` declaration — the first
declaration of a name creates its chain, a re-declaration appends to it. -/
def declareTask : Registry → String → TaskDecl → Registry
  | [], name, d => [(name, [d])]
  | (n, chain) :: rest, name, d =>
    if n == name then (n, chain ++ [d]) :: rest
    else (n, chain) :: declareTask rest name d

/-- The `runSuper` delegate: its `isDefined` flag, and invoking it, which
either fails (`RunSuperNotDefinedError`) or resolves the given raw
arguments against the snapshot schema and executes the snapshot action. -/
structure RunSuperFn where
  isDefined : Bool
  invoke : RawArgs → Except RSError (Action × ResolvedArgs)

/-- Modelled from the spec: the `runSuper` delegate bound at override
time: given the chain of declarations prior to the current one, it is a
non-defined stub when that chain is empty, and otherwise an immutable
snapshot of the last prior declaration — invoking it resolves arguments
against that declaration's own schema and executes its action. -/
def mkRunSuper (prior : List TaskDecl) : RunSuperFn :=
  match prior.getLast? with
  | none =>
      { isDefined := false
        invoke := fun _ => Except.error RSError.runSuperNotDefined }
  | some prev =>
      { isDefined := true
        invoke := fun raw =>
          (resolveArgs prev raw).map (fun a => (prev.action, a)) }

/-- Modelled from the spec: the runner's `run` entry point — look up the
name (failing with `UnrecognizedTaskError` if absent), resolve the raw
arguments against the current declaration's schema, and invoke the
current action with the resolved arguments and the `runSuper` delegate
bound to the declarations it overrode.  The successful result records
which action executes, with which arguments, and the delegate it was
passed. -/
def runTask (reg : Registry) (name : String) (raw : RawArgs) :
    Except RSError (Action × ResolvedArgs × RunSuperFn) :=
  match reg.lookup name with
  | none => Except.error (RSError.unrecognizedTask name)
  | some chain =>
    match chain.getLast? with
    | none => Except.error (RSError.unrecognizedTask name)
    | some cur => do
        let args ← resolveArgs cur raw
        Except.ok (cur.action, args, mkRunSuper chain.dropLast)

/-! ### Task definition builder -/

/-- The parameter schemas accumulated by a task-definition builder. -/
structure TaskBuilder where
  namedParams : List ParamDefinition
  positionalParams : List ParamDefinition

/-- Whether a parameter name is already used in the builder's schema. -/
def paramNameUsed (b : TaskBuilder) (nm : String) : Bool :=
  (b.namedParams ++ b.positionalParams).any (fun p => p.name == nm)

/-- Modelled from the spec: `addPositionalParam` (and, with `isOpt :=
true`, `addOptionalPositionalParam`) — enforced immediately at the add
call: a required positional parameter may not follow an optional one,
parameter names are unique, and no positional may follow a variadic
one. -/
def addPositionalParam (b : TaskBuilder) (nm : String) (ty : ArgType)
    (dflt : Option TValue) (isOpt : Bool) : Except RSError TaskBuilder :=
  if !isOpt && b.positionalParams.any (fun p => p.isOptional) then
    Except.error (RSError.requiredAfterOptionalPositional nm)
  else if paramNameUsed b nm then
    Except.error (RSError.duplicateParamName nm)
  else if b.positionalParams.any (fun p => p.isVariadic) then
    Except.error (RSError.variadicNotLast nm)
  else
    Except.ok { b with positionalParams :=
      b.positionalParams ++ [⟨nm, ty, dflt, isOpt, false, false⟩] }

/-! ## Derived vocabulary used by the statements -/

/-- The duplicate detection performed by the output loop, in isolation:
the pair of paths the loop's `DuplicateArtifactNameError` carries, if a
duplicate name is hit. -/
def findDup : List InkOutput → List String → List String →
    Option (String × String)
  | [], _, _ => none
  | t :: rest, names, paths =>
    if names.contains t.name then
      some (paths.getD (names.indexOf t.name) "", t.contract)
    else findDup rest (names ++ [t.name]) (paths ++ [t.contract])

/-- The records the output loop fully processes (writes files for):
everything strictly before the first record whose name was already
seen. -/
def processedBeforeDup : List InkOutput → List String → List InkOutput
  | [], _ => []
  | t :: rest, names =>
    if names.contains t.name then []
    else t :: processedBeforeDup rest (names ++ [t.name])

/-- Whether an `Except` result is a success. -/
def exOk {ε α : Type} : Except ε α → Bool
  | Except.ok _ => true
  | Except.error _ => false

/-- The named/flag parameters of a schema that are absent from the raw
named arguments. -/
def absentNamed (ps : List ParamDefinition) (raw : List (String × RValue)) :
    List ParamDefinition :=
  ps.filter (fun p => (raw.lookup p.name).isNone)

/-- The positional parameters that come up absent when the positional
slice is consumed in declared order (a variadic parameter with a
non-empty remaining slice consumes everything, so nothing after it is
absent; with an empty slice it is itself absent). -/
def absentPositionals : List ParamDefinition → List RValue → List ParamDefinition
  | [], _ => []
  | p :: ps, [] => if p.isVariadic then [p] else p :: absentPositionals ps []
  | p :: ps, _ :: rest =>
    if p.isVariadic then [] else absentPositionals ps rest

/-- All parameters of a declaration absent from the given raw arguments. -/
def absentParams (decl : TaskDecl) (raw : RawArgs) : List ParamDefinition :=
  absentNamed decl.namedParams raw.named ++
    absentPositionals decl.positionalParams raw.positional

/-! ## Concrete fixtures used by the witnesses -/

/-- The built-in `string` argument type. -/
def stringArgType : ArgType where
  name := "string"
  validate := fun v => match v with | TValue.vStr _ => true | _ => false
  parse := some (fun s => some (TValue.vStr s))

/-- A concrete ABI record with a `source.wasm` field present. -/
def abiW : AbiJSON := ⟨⟨some "0x00ff", "ink 3.0"⟩, "erc20 metadata"⟩

/-- A read-from-disk stub returning `abiW` for every path. -/
def rdW : String → AbiJSON := fun _ => abiW

/-- Compiler output with a duplicate contract name. -/
def dupOut : List InkOutput := [⟨"flip", "p1"⟩, ⟨"flip", "p2"⟩]

/-- Duplicate-free compiler output. -/
def okOut : List InkOutput := [⟨"flip", "p1"⟩, ⟨"erc20", "p2"⟩]

/-- A runner stub for the compile pipeline in which every stage
succeeds. -/
def itpW : RunInterp := fun n _ =>
  match n with
  | TaskName.TASK_COMPILE_INK_INPUT => Except.ok (StageValue.inputV ⟨["lib.rs"]⟩)
  | TaskName.TASK_COMPILE_INK_EXEC =>
      Except.ok (StageValue.outputV (some [⟨"flip", "p1"⟩]))
  | _ => Except.ok StageValue.unitV

/-- A base task declaration with an empty schema. -/
def declW0 : TaskDecl := ⟨[], [], 0⟩

/-- An overriding task declaration with an empty schema. -/
def declW1 : TaskDecl := ⟨[], [], 1⟩

/-- A builder that has already declared one optional positional
parameter. -/
def builderW : TaskBuilder :=
  ⟨[], [⟨"src", stringArgType, some (TValue.vStr "d"), true, false, false⟩]⟩

/-- A schema with one required named parameter and one optional named
parameter with a default, used to exercise argument resolution. -/
def declW2 : TaskDecl :=
  ⟨[⟨"owner", stringArgType, none, false, false, false⟩,
    ⟨"greeting", stringArgType, some (TValue.vStr "hello"), true, false, false⟩],
   [], 2⟩

/-! # Theorems -/

/-- C8: the compile pipeline's pre-check stage fails with the ink
environment error reporting the required version if and only if the
external environment check for the required compiler version reports the
environment invalid; on a valid environment the stage completes without
error. -/
theorem preStage_env_error_iff_invalid (checkEnv : String → Bool) :
    (taskCompileInkPre checkEnv = some (RSError.inkEnvError "v0.8.0") ↔
      checkEnv "0.8.0" = false) ∧
    (taskCompileInkPre checkEnv = none ↔ checkEnv "0.8.0" = true) := by
  cases h : checkEnv "0.8.0" <;> simp [taskCompileInkPre, h]

/-- C10: when the gathered compiler input has an empty sources list, the
invoke-compiler stage returns without calling the external compiler, and
the output-materialization stage returns without creating the artifact
directory, writing any artifact file, or printing anything. -/
theorem empty_sources_skips_compiler_and_output
    (compileFn : InkInput → Bool → List InkOutput) (verbose : Bool)
    (rd : String → AbiJSON) (dir : String) (input : InkInput)
    (output : List InkOutput) (hempty : input.sources = []) :
    taskCompileInkExec compileFn verbose input = ([], none) ∧
    taskCompileInkOutput rd dir input output = ([], none) := by
  constructor <;> simp [taskCompileInkExec, taskCompileInkOutput, hempty]

/-- Witness for C10 at a concrete empty input. -/
theorem empty_sources_skips_compiler_and_output_witness :
    taskCompileInkExec (fun _ _ => []) false ⟨[]⟩ = ([], none) ∧
    taskCompileInkOutput rdW "artifacts" ⟨[]⟩ dupOut = ([], none) :=
  empty_sources_skips_compiler_and_output (fun _ _ => []) false rdW
    "artifacts" ⟨[]⟩ dupOut rfl

/-- C2: the top-level compile task's action calls `run` for exactly the
four stage subtasks in order — pre-check, gather-input, invoke-compiler
(receiving the gather-input result), materialize-output (receiving both
the input and the compiler result) — whenever the earlier stages
succeed. -/
theorem compileInk_runs_four_stages_in_order (itp : RunInterp)
    (sp : List String) (v₁ v₂ v₃ : StageValue)
    (h1 : itp TaskName.TASK_COMPILE_INK_PRE TaskArg.noArgs = Except.ok v₁)
    (h2 : itp TaskName.TASK_COMPILE_INK_INPUT (TaskArg.sourcePatternArg sp) =
      Except.ok v₂)
    (h3 : itp TaskName.TASK_COMPILE_INK_EXEC (TaskArg.execArgs v₂) =
      Except.ok v₃) :
    (taskCompileInk sp itp).1 =
      [(TaskName.TASK_COMPILE_INK_PRE, TaskArg.noArgs),
       (TaskName.TASK_COMPILE_INK_INPUT, TaskArg.sourcePatternArg sp),
       (TaskName.TASK_COMPILE_INK_EXEC, TaskArg.execArgs v₂),
       (TaskName.TASK_COMPILE_INK_OUTPUT, TaskArg.outputArgs v₂ v₃)] := by
  simp [taskCompileInk, bindM, runCallM, h1, h2, h3]

/-- Witness for C2 under the all-stages-succeed runner stub. -/
theorem compileInk_runs_four_stages_in_order_witness :
    (taskCompileInk ["**/*.rs"] itpW).1 =
      [(TaskName.TASK_COMPILE_INK_PRE, TaskArg.noArgs),
       (TaskName.TASK_COMPILE_INK_INPUT, TaskArg.sourcePatternArg ["**/*.rs"]),
       (TaskName.TASK_COMPILE_INK_EXEC,
         TaskArg.execArgs (StageValue.inputV ⟨["lib.rs"]⟩)),
       (TaskName.TASK_COMPILE_INK_OUTPUT,
         TaskArg.outputArgs (StageValue.inputV ⟨["lib.rs"]⟩)
           (StageValue.outputV (some [⟨"flip", "p1"⟩])))] :=
  compileInk_runs_four_stages_in_order itpW ["**/*.rs"] StageValue.unitV
    (StageValue.inputV ⟨["lib.rs"]⟩)
    (StageValue.outputV (some [⟨"flip", "p1"⟩])) rfl rfl rfl

/-- C7: declaring a required positional parameter after an optional
positional parameter has already been declared fails immediately at the
builder add-call. -/
theorem addPositionalParam_required_after_optional_fails
    (b : TaskBuilder) (nm : String) (ty : ArgType) (dflt : Option TValue)
    (hopt : b.positionalParams.any (fun p => p.isOptional) = true) :
    addPositionalParam b nm ty dflt false =
      Except.error (RSError.requiredAfterOptionalPositional nm) := by
  simp [addPositionalParam, hopt]

/-- Witness for C7 on a builder that already holds an optional positional
parameter. -/
theorem addPositionalParam_required_after_optional_fails_witness :
    addPositionalParam builderW "other" stringArgType none false =
      Except.error (RSError.requiredAfterOptionalPositional "other") :=
  addPositionalParam_required_after_optional_fails builderW "other"
    stringArgType none rfl

/-! ### Output-stage lemmas -/

lemma outputLoop_err (rd : String → AbiJSON) (dir : String) :
    ∀ (l : List InkOutput) (names paths : List String),
      (outputLoop rd dir l names paths).2 =
        (findDup l names paths).map
          (fun pr => RSError.duplicateArtifactName pr.1 pr.2) := by
  intro l
  induction l with
  | nil => intro names paths; rfl
  | cons t rest ih =>
    intro names paths
    by_cases h : t.name ∈ names
    · simp [outputLoop, findDup, h]
    · simp [outputLoop, findDup, h, ih]

lemma outputLoop_trace (rd : String → AbiJSON) (dir : String) :
    ∀ (l : List InkOutput) (names paths : List String),
      (outputLoop rd dir l names paths).1 =
        (processedBeforeDup l names).bind (writesFor rd dir) := by
  intro l
  induction l with
  | nil => intro names paths; rfl
  | cons t rest ih =>
    intro names paths
    by_cases h : t.name ∈ names
    · simp [outputLoop, processedBeforeDup, h]
    · simp [outputLoop, processedBeforeDup, h, ih]

/-- The function `indexOf` finds the first occurrence: the element is there, and the
sought value does not occur before it. -/
lemma indexOf_first (a : String) :
    ∀ (l : List String), a ∈ l →
      ∃ k, l.indexOf a = k ∧ k < l.length ∧ l.get? k = some a ∧
        a ∉ l.take k := by
  intro l
  induction l with
  | nil => intro h; cases h
  | cons b bs ih =>
    intro hmem
    by_cases hba : b = a
    · refine ⟨0, ?_, by simp, by simp [hba], by simp⟩
      simp [List.indexOf, List.findIdx_cons, hba]
    · have hmem' : a ∈ bs := by
        cases hmem with
        | head => exact absurd rfl hba
        | tail _ h => exact h
      obtain ⟨k, hk, hlt, hget, htake⟩ := ih hmem'
      have hbeq : (b == a) = false := by
        simp [hba]
      refine ⟨k + 1, ?_, by simpa using hlt, by simpa using hget, ?_⟩
      · simp [List.indexOf, List.findIdx_cons, hbeq]
        simpa [List.indexOf] using hk
      · intro hcontra
        rcases List.mem_cons.mp hcontra with h | h
        · exact hba h.symm
        · exact htake h

/-- Core duplicate analysis of `findDup`: when the already-processed
records `done` are duplicate-free but `done ++ l` is not, `findDup`
reports the contract path of the first record carrying the repeated name
together with the path of the colliding record. -/
lemma findDup_spec :
    ∀ (l done : List InkOutput),
      (done.map InkOutput.name).Nodup →
      ¬ ((done ++ l).map InkOutput.name).Nodup →
      ∃ pre t₁ mid t₂ post,
        done ++ l = pre ++ (t₁ :: (mid ++ (t₂ :: post))) ∧
        t₂.name = t₁.name ∧
        t₁.name ∉ pre.map InkOutput.name ∧
        findDup l (done.map InkOutput.name) (done.map InkOutput.contract) =
          some (t₁.contract, t₂.contract) := by
  intro l
  induction l with
  | nil =>
    intro done hnd hdup
    exact absurd (by simpa using hnd) (by simpa using hdup)
  | cons t rest ih =>
    intro done hnd hdup
    by_cases hc : t.name ∈ done.map InkOutput.name
    · obtain ⟨k, hk, hlt, hget, htake⟩ := indexOf_first t.name _ hc
      have hkdone : k < done.length := by simpa using hlt
      obtain ⟨t₁, hget₁, hname₁⟩ :
          ∃ t₁, done.get? k = some t₁ ∧ t₁.name = t.name := by
        rw [List.get?_map] at hget
        cases hd : done.get? k with
        | none => rw [hd] at hget; cases hget
        | some u =>
          rw [hd] at hget
          exact ⟨u, rfl, by simpa using hget⟩
      have hgetk : done.get ⟨k, hkdone⟩ = t₁ := by
        have := List.get?_eq_get hkdone
        rw [this] at hget₁
        exact Option.some.inj hget₁
      have hsplit : done = done.take k ++ (t₁ :: done.drop (k + 1)) := by
        conv_lhs => rw [← List.take_append_drop k done]
        rw [List.drop_eq_get_cons hkdone, hgetk]
      have hcontains : (done.map InkOutput.name).contains t.name = true :=
        List.elem_iff.mpr hc
      refine ⟨done.take k, t₁, done.drop (k + 1), t, rest, ?_, hname₁.symm, ?_, ?_⟩
      · conv_lhs => rw [hsplit]
        simp
      · rw [hname₁]
        intro hmem
        apply htake
        have : (done.take k).map InkOutput.name =
            (done.map InkOutput.name).take k := List.map_take _ _ _
        rwa [this] at hmem
      · rw [findDup, if_pos hcontains, hk]
        have hpath : (done.map InkOutput.contract).getD k "" = t₁.contract := by
          rw [List.getD_eq_getD_get?, List.get?_map, hget₁]
          rfl
        rw [hpath]
    · have hcontains : (done.map InkOutput.name).contains t.name = false := by
        cases hcc : (done.map InkOutput.name).contains t.name
        · rfl
        · exact absurd (List.elem_iff.mp hcc) hc
      have hnd' : ((done ++ [t]).map InkOutput.name).Nodup := by
        simp [List.nodup_append, hnd, hc]
      have hdup' : ¬ (((done ++ [t]) ++ rest).map InkOutput.name).Nodup := by
        simpa using hdup
      obtain ⟨pre, t₁, mid, t₂, post, heq, hname, hpre, hfd⟩ := ih (done ++ [t]) hnd' hdup'
      refine ⟨pre, t₁, mid, t₂, post, by simpa using heq, hname, hpre, ?_⟩
      rw [findDup, if_neg (by simpa using hc)]
      simpa using hfd

/-- On a duplicate-free continuation, `findDup` reports nothing. -/
lemma findDup_none :
    ∀ (l done : List InkOutput),
      ((done ++ l).map InkOutput.name).Nodup →
      findDup l (done.map InkOutput.name) (done.map InkOutput.contract) =
        none := by
  intro l
  induction l with
  | nil => intro done _; rfl
  | cons t rest ih =>
    intro done hnd
    have hc : t.name ∉ done.map InkOutput.name := by
      have := (List.nodup_append.mp (by simpa using hnd)).2.2
      intro hmem
      exact this hmem (by simp)
    have hcontains : (done.map InkOutput.name).contains t.name = false := by
      cases hcc : (done.map InkOutput.name).contains t.name
      · rfl
      · exact absurd (List.elem_iff.mp hcc) hc
    rw [findDup, if_neg (by simpa using hc)]
    have hnd' : (((done ++ [t]) ++ rest).map InkOutput.name).Nodup := by
      simpa using hnd
    simpa using ih (done ++ [t]) hnd'

/-- On a duplicate-free continuation, the loop processes every record. -/
lemma processedBeforeDup_all :
    ∀ (l done : List InkOutput),
      ((done ++ l).map InkOutput.name).Nodup →
      processedBeforeDup l (done.map InkOutput.name) = l := by
  intro l
  induction l with
  | nil => intro done _; rfl
  | cons t rest ih =>
    intro done hnd
    have hc : t.name ∉ done.map InkOutput.name := by
      have := (List.nodup_append.mp (by simpa using hnd)).2.2
      intro hmem
      exact this hmem (by simp)
    have hcontains : (done.map InkOutput.name).contains t.name = false := by
      cases hcc : (done.map InkOutput.name).contains t.name
      · rfl
      · exact absurd (List.elem_iff.mp hcc) hc
    rw [processedBeforeDup, if_neg (by simpa using hc)]
    have hnd' : (((done ++ [t]) ++ rest).map InkOutput.name).Nodup := by
      simpa using hnd
    have := ih (done ++ [t]) hnd'
    simpa using this

/-- Filtering the per-record writes for write events keeps everything. -/
lemma filter_writes_bind (rd : String → AbiJSON) (dir : String)
    (l : List InkOutput) :
    (l.bind (writesFor rd dir)).filter FsEvent.isWrite =
      l.bind (writesFor rd dir) := by
  induction l with
  | nil => rfl
  | cons t rest ih =>
    simp [List.cons_bind, List.filter_append, ih, writesFor, FsEvent.isWrite]

/-- The sources-empty guard evaluates to `false` on a non-empty list. -/
lemma sources_guard_false {input : InkInput} (hs : input.sources ≠ []) :
    (input.sources.length == 0) = false := by
  have : input.sources.length ≠ 0 := fun h => hs (List.length_eq_zero.mp h)
  simpa using this

/-- With a non-empty source list and a failing loop, the output stage
ensures the directory, performs the loop's writes, and reports the loop's
error; no success message is printed. -/
lemma taskCompileInkOutput_of_err (rd : String → AbiJSON) (dir : String)
    (input : InkInput) (output : List InkOutput) (hs : input.sources ≠ [])
    (e : RSError) (herr : (outputLoop rd dir output [] []).2 = some e) :
    taskCompileInkOutput rd dir input output =
      (FsEvent.ensureDir dir :: (outputLoop rd dir output [] []).1, some e) := by
  unfold taskCompileInkOutput
  rw [sources_guard_false hs]
  rcases hout : outputLoop rd dir output [] [] with ⟨evs, err⟩
  rw [hout] at herr
  simp only at herr
  subst herr
  simp

/-- With a non-empty source list and a successful loop, the output stage
ensures the directory, performs the loop's writes, and prints the success
message. -/
lemma taskCompileInkOutput_of_ok (rd : String → AbiJSON) (dir : String)
    (input : InkInput) (output : List InkOutput) (hs : input.sources ≠ [])
    (herr : (outputLoop rd dir output [] []).2 = none) :
    taskCompileInkOutput rd dir input output =
      (FsEvent.ensureDir dir :: (outputLoop rd dir output [] []).1 ++
        [FsEvent.logLine "", FsEvent.logLine (successMsg dir)], none) := by
  unfold taskCompileInkOutput
  rw [sources_guard_false hs]
  rcases hout : outputLoop rd dir output [] [] with ⟨evs, err⟩
  rw [hout] at herr
  simp only at herr
  subst herr
  simp

/-- C3: if the compiler output contains two records with the same name
(and the stage is actually reached with a non-empty source list), the
output stage fails with the duplicate-artifact-name error, carrying the
contract path of the first record bearing that name and the path of the
colliding record. -/
theorem outputStage_duplicate_name_reports_both_paths
    (rd : String → AbiJSON) (dir : String) (input : InkInput)
    (output : List InkOutput) (hs : input.sources ≠ [])
    (hdup : ¬ (output.map InkOutput.name).Nodup) :
    ∃ pre t₁ mid t₂ post,
      output = pre ++ (t₁ :: (mid ++ (t₂ :: post))) ∧
      t₂.name = t₁.name ∧
      t₁.name ∉ pre.map InkOutput.name ∧
      (taskCompileInkOutput rd dir input output).2 =
        some (RSError.duplicateArtifactName t₁.contract t₂.contract) := by
  obtain ⟨pre, t₁, mid, t₂, post, heq, hname, hpre, hfd⟩ :=
    findDup_spec output [] (by simp) (by simpa using hdup)
  have hfd' : findDup output [] [] = some (t₁.contract, t₂.contract) := by
    simpa using hfd
  have hloop : (outputLoop rd dir output [] []).2 =
      some (RSError.duplicateArtifactName t₁.contract t₂.contract) := by
    rw [outputLoop_err, hfd']
    rfl
  refine ⟨pre, t₁, mid, t₂, post, by simpa using heq, hname, hpre, ?_⟩
  rw [taskCompileInkOutput_of_err rd dir input output hs _ hloop]

/-- Witness for C3 on a concrete duplicated output. -/
theorem outputStage_duplicate_name_reports_both_paths_witness :
    ∃ pre t₁ mid t₂ post,
      dupOut = pre ++ (t₁ :: (mid ++ (t₂ :: post))) ∧
      t₂.name = t₁.name ∧
      t₁.name ∉ pre.map InkOutput.name ∧
      (taskCompileInkOutput rdW "artifacts" ⟨["lib.rs"]⟩ dupOut).2 =
        some (RSError.duplicateArtifactName t₁.contract t₂.contract) :=
  outputStage_duplicate_name_reports_both_paths rdW "artifacts"
    ⟨["lib.rs"]⟩ dupOut (by simp [InkInput.mk.injEq]) (by decide)

/-- C4 counterexample: at a concrete duplicated output the stage does
fail with `DuplicateArtifactNameError`, but artifact files HAVE been
written — the two files of the record preceding the duplicate are in the
trace — so "writes no artifact files at all, regardless of where in the
output sequence the duplicate occurs" is false on the code. -/
theorem outputStage_duplicate_counterexample :
    (taskCompileInkOutput rdW "artifacts" ⟨["lib.rs"]⟩ dupOut).2 =
      some (RSError.duplicateArtifactName "p1" "p2") ∧
    FsEvent.writeJSON (resolvePath "artifacts" "flip.contract") abiW ∈
      (taskCompileInkOutput rdW "artifacts" ⟨["lib.rs"]⟩ dupOut).1 := by
  constructor
  · rfl
  · simp [taskCompileInkOutput, outputLoop, writesFor, rdW, dupOut,
      resolvePath]

/-- C4 amended: when the compiler output contains a duplicate name (and
the stage is reached with a non-empty source list), the output stage
fails with `DuplicateArtifactNameError`, but it has already ensured the
artifact directory and written the two artifact files of every record
preceding the first duplicate; it writes nothing for the duplicate or any
later record and prints no success message — there is no rollback of the
already-written files. -/
theorem outputStage_duplicate_trace_amended
    (rd : String → AbiJSON) (dir : String) (input : InkInput)
    (output : List InkOutput) (hs : input.sources ≠ [])
    (hdup : ¬ (output.map InkOutput.name).Nodup) :
    ∃ p₁ p₂,
      (taskCompileInkOutput rd dir input output).2 =
        some (RSError.duplicateArtifactName p₁ p₂) ∧
      (taskCompileInkOutput rd dir input output).1 =
        FsEvent.ensureDir dir ::
          (processedBeforeDup output []).bind (writesFor rd dir) := by
  obtain ⟨pre, t₁, mid, t₂, post, _, _, _, hfd⟩ :=
    findDup_spec output [] (by simp) (by simpa using hdup)
  have hfd' : findDup output [] [] = some (t₁.contract, t₂.contract) := by
    simpa using hfd
  have hloop : (outputLoop rd dir output [] []).2 =
      some (RSError.duplicateArtifactName t₁.contract t₂.contract) := by
    rw [outputLoop_err, hfd']
    rfl
  refine ⟨t₁.contract, t₂.contract, ?_, ?_⟩ <;>
    rw [taskCompileInkOutput_of_err rd dir input output hs _ hloop]
  have htr := outputLoop_trace rd dir output [] []
  simpa using htr

/-- Witness for the amended C4 on a concrete duplicated output. -/
theorem outputStage_duplicate_trace_amended_witness :
    ∃ p₁ p₂,
      (taskCompileInkOutput rdW "artifacts" ⟨["lib.rs"]⟩ dupOut).2 =
        some (RSError.duplicateArtifactName p₁ p₂) ∧
      (taskCompileInkOutput rdW "artifacts" ⟨["lib.rs"]⟩ dupOut).1 =
        FsEvent.ensureDir "artifacts" ::
          (processedBeforeDup dupOut []).bind (writesFor rdW "artifacts") :=
  outputStage_duplicate_trace_amended rdW "artifacts" ⟨["lib.rs"]⟩ dupOut
    (by simp [InkInput.mk.injEq]) (by decide)

/-- C5: on a duplicate-free compiler output (with a non-empty source
list) the output stage succeeds, and the files it writes are exactly, for
each compiled unit, the full record as read to `<name>.contract` and the
same record with `source.wasm` removed to `<name>.json`, in the
configured artifact directory. -/
theorem outputStage_writes_two_records_per_unit
    (rd : String → AbiJSON) (dir : String) (input : InkInput)
    (output : List InkOutput) (hs : input.sources ≠ [])
    (hnd : (output.map InkOutput.name).Nodup) :
    (taskCompileInkOutput rd dir input output).2 = none ∧
    (taskCompileInkOutput rd dir input output).1.filter FsEvent.isWrite =
      output.bind (writesFor rd dir) := by
  have hfd : findDup output [] [] = none := by
    have := findDup_none output [] (by simpa using hnd)
    simpa using this
  have hloop : (outputLoop rd dir output [] []).2 = none := by
    rw [outputLoop_err, hfd]
    rfl
  have hall : processedBeforeDup output [] = output := by
    have := processedBeforeDup_all output [] (by simpa using hnd)
    simpa using this
  have htr : (outputLoop rd dir output [] []).1 =
      output.bind (writesFor rd dir) := by
    rw [outputLoop_trace, hall]
  rw [taskCompileInkOutput_of_ok rd dir input output hs hloop]
  refine ⟨rfl, ?_⟩
  simp only [htr]
  simp [List.filter_append, filter_writes_bind, FsEvent.isWrite]

/-- Witness for C5 on a concrete duplicate-free output. -/
theorem outputStage_writes_two_records_per_unit_witness :
    (taskCompileInkOutput rdW "artifacts" ⟨["lib.rs"]⟩ okOut).2 = none ∧
    (taskCompileInkOutput rdW "artifacts" ⟨["lib.rs"]⟩ okOut).1.filter
        FsEvent.isWrite =
      okOut.bind (writesFor rdW "artifacts") :=
  outputStage_writes_two_records_per_unit rdW "artifacts" ⟨["lib.rs"]⟩
    okOut (by simp [InkInput.mk.injEq]) (by decide)

/-! ### Registry and override-chaining lemmas -/

/-- Declaring the same name repeatedly builds a single chain holding all
declarations in order. -/
lemma declare_chain (name : String) (d : TaskDecl) (ds : List TaskDecl) :
    (d :: ds).foldl (fun r x => declareTask r name x) [] = [(name, d :: ds)] := by
  have haux : ∀ (xs chain : List TaskDecl),
      xs.foldl (fun r x => declareTask r name x) [(name, chain)] =
        [(name, chain ++ xs)] := by
    intro xs
    induction xs with
    | nil => intro chain; simp
    | cons x xs ih =>
      intro chain
      have hstep : declareTask [(name, chain)] name x = [(name, chain ++ [x])] := by
        simp [declareTask]
      simp only [List.foldl_cons, hstep, ih]
      simp
  have hstep : declareTask [] name d = [(name, [d])] := rfl
  simp only [List.foldl_cons, hstep, haux]
  simp

/-- The last element of `dropLast` is the second-to-last element of the
original list. -/
lemma getLast?_dropLast {α : Type} (l : List α) (h : 2 ≤ l.length) :
    l.dropLast.getLast? = l.get? (l.length - 2) := by
  rw [List.dropLast_eq_take, List.getLast?_eq_get?, List.length_take]
  have h1 : min (l.length - 1) l.length - 1 = l.length - 2 := by omega
  rw [h1, List.get?_take (by omega : l.length - 2 < l.length - 1)]

/-- C1: after N ≥ 2 declarations of the same task name, the `runSuper`
delegate that `runTask` passes to the Nth declaration's action has
`isDefined = true`, and invoking it executes exactly the (N-1)th
declaration's action on arguments resolved against the (N-1)th
declaration's own schema — never an earlier one. -/
theorem runSuper_executes_immediate_predecessor
    (name : String) (decls : List TaskDecl) (prev : TaskDecl)
    (raw : RawArgs) (act : Action) (args : ResolvedArgs) (rs : RunSuperFn)
    (h2 : 2 ≤ decls.length)
    (hprev : decls.get? (decls.length - 2) = some prev)
    (hrun : runTask (decls.foldl (fun r x => declareTask r name x) []) name raw =
      Except.ok (act, args, rs)) :
    rs.isDefined = true ∧
    ∀ sraw, rs.invoke sraw =
      (resolveArgs prev sraw).map (fun a => (prev.action, a)) := by
  cases decls with
  | nil => simp at h2
  | cons d ds =>
    rw [declare_chain name d ds] at hrun
    unfold runTask at hrun
    simp only [List.lookup, beq_self_eq_true] at hrun
    obtain ⟨cur, hcur⟩ : ∃ cur, (d :: ds).getLast? = some cur :=
      ⟨_, List.getLast?_eq_getLast_of_ne_nil (by simp)⟩
    rw [hcur] at hrun
    dsimp only at hrun
    cases hres : resolveArgs cur raw with
    | error e =>
      rw [hres] at hrun
      simp [Bind.bind, Except.bind] at hrun
    | ok a =>
      rw [hres] at hrun
      simp only [Bind.bind, Except.bind, Except.ok.injEq, Prod.mk.injEq] at hrun
      obtain ⟨-, -, hrs⟩ := hrun
      subst hrs
      have hgl : (d :: ds).dropLast.getLast? = some prev := by
        rw [getLast?_dropLast _ h2, hprev]
      unfold mkRunSuper
      rw [hgl]
      exact ⟨rfl, fun sraw => rfl⟩

/-- Witness for C1: a chain of two declarations; the delegate handed out
by `runTask` is defined and executes the base declaration's action with
the base declaration's schema resolution. -/
theorem runSuper_executes_immediate_predecessor_witness :
    (mkRunSuper [declW0]).isDefined = true ∧
    (mkRunSuper [declW0]).invoke ⟨[], []⟩ =
      (resolveArgs declW0 ⟨[], []⟩).map (fun a => (declW0.action, a)) :=
  have h := runSuper_executes_immediate_predecessor "greet" [declW0, declW1]
    declW0 ⟨[], []⟩ declW1.action [] (mkRunSuper [declW0])
    (by decide) rfl rfl
  ⟨h.1, h.2 ⟨[], []⟩⟩

/-- C9: for a task name with a single (base) declaration, the `runSuper`
delegate that `runTask` passes to the action has `isDefined = false`, and
calling it fails with the no-previous-implementation error instead of
running any action. -/
theorem runSuper_base_declaration_not_defined
    (name : String) (d : TaskDecl) (raw : RawArgs)
    (act : Action) (args : ResolvedArgs) (rs : RunSuperFn)
    (hrun : runTask (declareTask [] name d) name raw =
      Except.ok (act, args, rs)) :
    rs.isDefined = false ∧
    ∀ sraw, rs.invoke sraw = Except.error RSError.runSuperNotDefined := by
  have hreg : declareTask [] name d = [(name, [d])] := rfl
  rw [hreg] at hrun
  unfold runTask at hrun
  simp only [List.lookup, beq_self_eq_true] at hrun
  cases hres : resolveArgs d raw with
  | error e =>
    rw [show ([d] : List TaskDecl).getLast? = some d from rfl] at hrun
    dsimp only at hrun
    rw [hres] at hrun
    simp [Bind.bind, Except.bind] at hrun
  | ok a =>
    rw [show ([d] : List TaskDecl).getLast? = some d from rfl] at hrun
    dsimp only at hrun
    rw [hres] at hrun
    simp only [Bind.bind, Except.bind, Except.ok.injEq, Prod.mk.injEq] at hrun
    obtain ⟨-, -, hrs⟩ := hrun
    subst hrs
    exact ⟨rfl, fun sraw => rfl⟩

/-- Witness for C9: the delegate of a base declaration is undefined and
calling it fails. -/
theorem runSuper_base_declaration_not_defined_witness :
    (mkRunSuper []).isDefined = false ∧
    (mkRunSuper []).invoke ⟨[], []⟩ =
      Except.error RSError.runSuperNotDefined :=
  have h := runSuper_base_declaration_not_defined "greet" declW0 ⟨[], []⟩
    declW0.action [] (mkRunSuper []) rfl
  ⟨h.1, h.2 ⟨[], []⟩⟩

/-! ### Argument-resolution lemmas -/

lemma exOk_iff {ε α : Type} (x : Except ε α) :
    exOk x = true ↔ ∃ v, x = Except.ok v := by
  cases x <;> simp [exOk]

/-- Named resolution succeeds, substituting defaults for absent optional
parameters, when every present value resolves and every absent parameter
is optional with a valid default. -/
lemma resolveNamed_ok :
    ∀ (ps : List ParamDefinition) (raw : List (String × RValue)),
      (∀ p ∈ ps, ∀ rv, raw.lookup p.name = some rv →
        exOk (resolveOne p rv) = true) →
      (∀ p ∈ ps, raw.lookup p.name = none →
        p.isOptional = true ∧
          ∃ d, p.defaultValue = some d ∧ p.type.validate d = true) →
      ∃ out, resolveNamed ps raw = Except.ok out ∧
        ∀ p ∈ ps, raw.lookup p.name = none →
          ∀ d, p.defaultValue = some d → (p.name, d) ∈ out := by
  intro ps raw
  induction ps with
  | nil => intro _ _; exact ⟨[], rfl, by simp⟩
  | cons p ps ih =>
    intro hpres habs
    obtain ⟨out, hout, hmem⟩ := ih
      (fun q hq rv hl => hpres q (List.mem_cons_of_mem _ hq) rv hl)
      (fun q hq hl => habs q (List.mem_cons_of_mem _ hq) hl)
    cases hl : raw.lookup p.name with
    | some rv =>
      obtain ⟨v, hv⟩ := (exOk_iff _).mp (hpres p (List.mem_cons_self _ _) rv hl)
      refine ⟨(p.name, v) :: out, ?_, ?_⟩
      · simp [resolveNamed, hl, hv, hout, Bind.bind, Except.bind]
      · intro q hq hqnone d hd
        rcases List.mem_cons.mp hq with rfl | hq'
        · rw [hqnone] at hl; cases hl
        · exact List.mem_cons_of_mem _ (hmem q hq' hqnone d hd)
    | none =>
      obtain ⟨hopt, d₀, hd₀, hval⟩ := habs p (List.mem_cons_self _ _) hl
      have habsres : resolveAbsent p = Except.ok d₀ := by
        simp [resolveAbsent, hopt, hd₀, hval]
      refine ⟨(p.name, d₀) :: out, ?_, ?_⟩
      · simp [resolveNamed, hl, habsres, hout, Bind.bind, Except.bind]
      · intro q hq hqnone d hd
        rcases List.mem_cons.mp hq with rfl | hq'
        · rw [hd₀] at hd
          exact Option.some.inj hd ▸ List.mem_cons_self _ _
        · exact List.mem_cons_of_mem _ (hmem q hq' hqnone d hd)

/-- Named resolution fails with `MissingRequiredArgumentError` naming an
absent required parameter, when one exists (present values resolving and
absent optional parameters having valid defaults). -/
lemma resolveNamed_err :
    ∀ (ps : List ParamDefinition) (raw : List (String × RValue)),
      (∀ p ∈ ps, ∀ rv, raw.lookup p.name = some rv →
        exOk (resolveOne p rv) = true) →
      (∀ p ∈ ps, raw.lookup p.name = none → p.isOptional = true →
        ∃ d, p.defaultValue = some d ∧ p.type.validate d = true) →
      (∃ p ∈ ps, raw.lookup p.name = none ∧ p.isOptional = false) →
      ∃ q, q ∈ ps ∧ raw.lookup q.name = none ∧ q.isOptional = false ∧
        resolveNamed ps raw =
          Except.error (RSError.missingRequiredArgument q.name) := by
  intro ps raw
  induction ps with
  | nil => intro _ _ hmiss; simp at hmiss
  | cons p ps ih =>
    intro hpres hdefs hmiss
    cases hl : raw.lookup p.name with
    | some rv =>
      obtain ⟨v, hv⟩ := (exOk_iff _).mp (hpres p (List.mem_cons_self _ _) rv hl)
      obtain ⟨q₀, hq₀, hq₀none, hq₀opt⟩ := hmiss
      have hq₀' : q₀ ∈ ps := by
        rcases List.mem_cons.mp hq₀ with rfl | h
        · rw [hq₀none] at hl; cases hl
        · exact h
      obtain ⟨q, hq, hqnone, hqopt, herr⟩ := ih
        (fun r hr rv hlr => hpres r (List.mem_cons_of_mem _ hr) rv hlr)
        (fun r hr hlr hro => hdefs r (List.mem_cons_of_mem _ hr) hlr hro)
        ⟨q₀, hq₀', hq₀none, hq₀opt⟩
      refine ⟨q, List.mem_cons_of_mem _ hq, hqnone, hqopt, ?_⟩
      simp [resolveNamed, hl, hv, herr, Bind.bind, Except.bind]
    | none =>
      cases hopt : p.isOptional with
      | false =>
        have habsres : resolveAbsent p =
            Except.error (RSError.missingRequiredArgument p.name) := by
          simp [resolveAbsent, hopt]
        refine ⟨p, List.mem_cons_self _ _, hl, hopt, ?_⟩
        simp [resolveNamed, hl, habsres, Bind.bind, Except.bind]
      | true =>
        obtain ⟨d₀, hd₀, hval⟩ := hdefs p (List.mem_cons_self _ _) hl hopt
        have habsres : resolveAbsent p = Except.ok d₀ := by
          simp [resolveAbsent, hopt, hd₀, hval]
        obtain ⟨q₀, hq₀, hq₀none, hq₀opt⟩ := hmiss
        have hq₀' : q₀ ∈ ps := by
          rcases List.mem_cons.mp hq₀ with rfl | h
          · rw [hopt] at hq₀opt; cases hq₀opt
          · exact h
        obtain ⟨q, hq, hqnone, hqopt, herr⟩ := ih
          (fun r hr rv hlr => hpres r (List.mem_cons_of_mem _ hr) rv hlr)
          (fun r hr hlr hro => hdefs r (List.mem_cons_of_mem _ hr) hlr hro)
          ⟨q₀, hq₀', hq₀none, hq₀opt⟩
        refine ⟨q, List.mem_cons_of_mem _ hq, hqnone, hqopt, ?_⟩
        simp [resolveNamed, hl, habsres, herr, Bind.bind, Except.bind]

/-- Variadic consumption succeeds when every consumed value resolves. -/
lemma resolveList_ok (p : ParamDefinition) :
    ∀ (rs : List RValue), (∀ r ∈ rs, exOk (resolveOne p r) = true) →
      ∃ vs, resolveList p rs = Except.ok vs := by
  intro rs
  induction rs with
  | nil => intro _; exact ⟨[], rfl⟩
  | cons r rs ih =>
    intro hpres
    obtain ⟨v, hv⟩ := (exOk_iff _).mp (hpres r (List.mem_cons_self _ _))
    obtain ⟨vs, hvs⟩ := ih (fun r' hr' => hpres r' (List.mem_cons_of_mem _ hr'))
    exact ⟨v :: vs, by simp [resolveList, hv, hvs, Bind.bind, Except.bind]⟩

/-- Positional resolution succeeds, substituting defaults for the absent
suffix, when consumed values resolve and absent parameters are optional
with valid defaults. -/
lemma resolvePositional_ok :
    ∀ (ps : List ParamDefinition) (raws : List RValue),
      (∀ p ∈ ps, ∀ r ∈ raws, exOk (resolveOne p r) = true) →
      (∀ p ∈ absentPositionals ps raws,
        p.isOptional = true ∧
          ∃ d, p.defaultValue = some d ∧ p.type.validate d = true) →
      ∃ out, resolvePositional ps raws = Except.ok out ∧
        ∀ p ∈ absentPositionals ps raws, ∀ d, p.defaultValue = some d →
          (p.name, d) ∈ out := by
  intro ps
  induction ps with
  | nil => intro raws _ _; exact ⟨[], rfl, by simp [absentPositionals]⟩
  | cons p ps ih =>
    intro raws hpres habs
    cases hv : p.isVariadic with
    | true =>
      cases raws with
      | nil =>
        have habsent : absentPositionals (p :: ps) [] = [p] := by
          simp [absentPositionals, hv]
        rw [habsent] at habs
        obtain ⟨hopt, d₀, hd₀, hval⟩ := habs p (List.mem_cons_self _ _)
        have habsres : resolveAbsent p = Except.ok d₀ := by
          simp [resolveAbsent, hopt, hd₀, hval]
        refine ⟨[(p.name, d₀)], ?_, ?_⟩
        · simp [resolvePositional, hv, habsres, Bind.bind, Except.bind]
        · rw [habsent]
          intro q hq d hd
          rcases List.mem_cons.mp hq with rfl | h
          · rw [hd₀] at hd
            exact Option.some.inj hd ▸ List.mem_cons_self _ _
          · cases h
      | cons r rest =>
        have habsent : absentPositionals (p :: ps) (r :: rest) = [] := by
          simp [absentPositionals, hv]
        obtain ⟨vs, hvs⟩ := resolveList_ok p (r :: rest)
          (fun r' hr' => hpres p (List.mem_cons_self _ _) r' hr')
        refine ⟨[(p.name, TValue.vSeq vs)], ?_, ?_⟩
        · simp [resolvePositional, hv, hvs, Bind.bind, Except.bind]
        · rw [habsent]; simp
    | false =>
      cases raws with
      | nil =>
        have habsent : absentPositionals (p :: ps) [] =
            p :: absentPositionals ps [] := by
          simp [absentPositionals, hv]
        rw [habsent] at habs
        obtain ⟨hopt, d₀, hd₀, hval⟩ := habs p (List.mem_cons_self _ _)
        have habsres : resolveAbsent p = Except.ok d₀ := by
          simp [resolveAbsent, hopt, hd₀, hval]
        obtain ⟨out, hout, hmem⟩ := ih [] (by simp)
          (fun q hq => habs q (List.mem_cons_of_mem _ hq))
        refine ⟨(p.name, d₀) :: out, ?_, ?_⟩
        · simp [resolvePositional, hv, habsres, hout, Bind.bind, Except.bind]
        · rw [habsent]
          intro q hq d hd
          rcases List.mem_cons.mp hq with rfl | h
          · rw [hd₀] at hd
            exact Option.some.inj hd ▸ List.mem_cons_self _ _
          · exact List.mem_cons_of_mem _ (hmem q h d hd)
      | cons r rest =>
        have habsent : absentPositionals (p :: ps) (r :: rest) =
            absentPositionals ps rest := by
          simp [absentPositionals, hv]
        rw [habsent] at habs
        obtain ⟨v, hvone⟩ := (exOk_iff _).mp
          (hpres p (List.mem_cons_self _ _) r (List.mem_cons_self _ _))
        obtain ⟨out, hout, hmem⟩ := ih rest
          (fun q hq r' hr' =>
            hpres q (List.mem_cons_of_mem _ hq) r' (List.mem_cons_of_mem _ hr'))
          habs
        refine ⟨(p.name, v) :: out, ?_, ?_⟩
        · simp [resolvePositional, hv, hvone, hout, Bind.bind, Except.bind]
        · rw [habsent]
          intro q hq d hd
          exact List.mem_cons_of_mem _ (hmem q hq d hd)

/-- Positional resolution fails with `MissingRequiredArgumentError` when
an absent positional parameter is required. -/
lemma resolvePositional_err :
    ∀ (ps : List ParamDefinition) (raws : List RValue),
      (∀ p ∈ ps, ∀ r ∈ raws, exOk (resolveOne p r) = true) →
      (∀ p ∈ absentPositionals ps raws, p.isOptional = true →
        ∃ d, p.defaultValue = some d ∧ p.type.validate d = true) →
      (∃ p ∈ absentPositionals ps raws, p.isOptional = false) →
      ∃ q, q ∈ absentPositionals ps raws ∧ q.isOptional = false ∧
        resolvePositional ps raws =
          Except.error (RSError.missingRequiredArgument q.name) := by
  intro ps
  induction ps with
  | nil => intro raws _ _ hmiss; simp [absentPositionals] at hmiss
  | cons p ps ih =>
    intro raws hpres hdefs hmiss
    cases hv : p.isVariadic with
    | true =>
      cases raws with
      | nil =>
        have habsent : absentPositionals (p :: ps) [] = [p] := by
          simp [absentPositionals, hv]
        rw [habsent] at hmiss hdefs ⊢
        obtain ⟨q₀, hq₀, hq₀opt⟩ := hmiss
        rcases List.mem_cons.mp hq₀ with rfl | h
        · have habsres : resolveAbsent q₀ =
              Except.error (RSError.missingRequiredArgument q₀.name) := by
            simp [resolveAbsent, hq₀opt]
          refine ⟨q₀, List.mem_cons_self _ _, hq₀opt, ?_⟩
          simp [resolvePositional, hv, habsres, Bind.bind, Except.bind]
        · cases h
      | cons r rest =>
        have habsent : absentPositionals (p :: ps) (r :: rest) = [] := by
          simp [absentPositionals, hv]
        rw [habsent] at hmiss
        simp at hmiss
    | false =>
      cases raws with
      | nil =>
        have habsent : absentPositionals (p :: ps) [] =
            p :: absentPositionals ps [] := by
          simp [absentPositionals, hv]
        rw [habsent] at hmiss hdefs ⊢
        cases hopt : p.isOptional with
        | false =>
          have habsres : resolveAbsent p =
              Except.error (RSError.missingRequiredArgument p.name) := by
            simp [resolveAbsent, hopt]
          refine ⟨p, List.mem_cons_self _ _, hopt, ?_⟩
          simp [resolvePositional, hv, habsres, Bind.bind, Except.bind]
        | true =>
          obtain ⟨d₀, hd₀, hval⟩ := hdefs p (List.mem_cons_self _ _) hopt
          have habsres : resolveAbsent p = Except.ok d₀ := by
            simp [resolveAbsent, hopt, hd₀, hval]
          obtain ⟨q₀, hq₀, hq₀opt⟩ := hmiss
          have hq₀' : q₀ ∈ absentPositionals ps [] := by
            rcases List.mem_cons.mp hq₀ with rfl | h
            · rw [hopt] at hq₀opt; cases hq₀opt
            · exact h
          obtain ⟨q, hq, hqopt, herr⟩ := ih [] (by simp)
            (fun r hr hro => hdefs r (List.mem_cons_of_mem _ hr) hro)
            ⟨q₀, hq₀', hq₀opt⟩
          refine ⟨q, List.mem_cons_of_mem _ hq, hqopt, ?_⟩
          simp [resolvePositional, hv, habsres, herr, Bind.bind, Except.bind]
      | cons r rest =>
        have habsent : absentPositionals (p :: ps) (r :: rest) =
            absentPositionals ps rest := by
          simp [absentPositionals, hv]
        rw [habsent] at hmiss hdefs ⊢
        obtain ⟨v, hvone⟩ := (exOk_iff _).mp
          (hpres p (List.mem_cons_self _ _) r (List.mem_cons_self _ _))
        obtain ⟨q, hq, hqopt, herr⟩ := ih rest
          (fun q' hq' r' hr' =>
            hpres q' (List.mem_cons_of_mem _ hq') r' (List.mem_cons_of_mem _ hr'))
          hdefs hmiss
        refine ⟨q, hq, hqopt, ?_⟩
        simp [resolvePositional, hv, hvone, herr, Bind.bind, Except.bind]

lemma mem_absentNamed {p : ParamDefinition} {ps : List ParamDefinition}
    {raw : List (String × RValue)} :
    p ∈ absentNamed ps raw ↔ p ∈ ps ∧ raw.lookup p.name = none := by
  simp [absentNamed, List.mem_filter, Option.isNone_iff_eq_none]

/-- C6: during argument resolution (every value present in the raw
arguments resolving, and every absent optional parameter carrying a valid
declared default), if any required parameter — named or positional — is
absent from the raw arguments, resolution fails with
`MissingRequiredArgumentError` naming an absent required parameter, so
the action is never invoked; and if every absent parameter is optional,
resolution succeeds and maps each absent parameter to its declared
default. -/
theorem resolution_missing_required_and_defaults
    (decl : TaskDecl) (raw : RawArgs)
    (hpn : decl.namedParams.all (fun p =>
        match raw.named.lookup p.name with
        | some rv => exOk (resolveOne p rv)
        | none => true) = true)
    (hpp : decl.positionalParams.all (fun p =>
        raw.positional.all (fun r => exOk (resolveOne p r))) = true)
    (hdef : (absentParams decl raw).all (fun p =>
        !p.isOptional ||
          (match p.defaultValue with
           | some d => p.type.validate d
           | none => false)) = true) :
    ((absentParams decl raw).any (fun p => !p.isOptional) = true →
      ∃ q, q ∈ absentParams decl raw ∧ q.isOptional = false ∧
        resolveArgs decl raw =
          Except.error (RSError.missingRequiredArgument q.name)) ∧
    ((absentParams decl raw).all (fun p => p.isOptional) = true →
      ∃ out, resolveArgs decl raw = Except.ok out ∧
        ∀ p ∈ absentParams decl raw, ∀ d, p.defaultValue = some d →
          (p.name, d) ∈ out) := by
  have hpn' : ∀ p ∈ decl.namedParams, ∀ rv,
      raw.named.lookup p.name = some rv → exOk (resolveOne p rv) = true := by
    intro p hp rv hl
    have h := List.all_eq_true.mp hpn p hp
    rw [hl] at h
    simpa using h
  have hpp' : ∀ p ∈ decl.positionalParams, ∀ r ∈ raw.positional,
      exOk (resolveOne p r) = true := by
    intro p hp r hr
    exact List.all_eq_true.mp (List.all_eq_true.mp hpp p hp) r hr
  have hdef' : ∀ p ∈ absentParams decl raw, p.isOptional = true →
      ∃ d, p.defaultValue = some d ∧ p.type.validate d = true := by
    intro p hp hopt
    have h := List.all_eq_true.mp hdef p hp
    rw [hopt] at h
    simp only [Bool.not_true, Bool.false_or] at h
    cases hd : p.defaultValue with
    | none => rw [hd] at h; simp at h
    | some d => rw [hd] at h; exact ⟨d, rfl, h⟩
  constructor
  · intro hany
    obtain ⟨p₀, hp₀, hp₀req⟩ := List.any_eq_true.mp hany
    have hp₀req' : p₀.isOptional = false := by simpa using hp₀req
    by_cases hn : ∃ q ∈ absentNamed decl.namedParams raw.named,
        q.isOptional = false
    · obtain ⟨q₀, hq₀, hq₀opt⟩ := hn
      have hq₀mem := mem_absentNamed.mp hq₀
      obtain ⟨q, hqps, hqnone, hqopt, herr⟩ :=
        resolveNamed_err decl.namedParams raw.named hpn'
          (fun r hr hlr hro => hdef' r
            (List.mem_append_left _ (mem_absentNamed.mpr ⟨hr, hlr⟩)) hro)
          ⟨q₀, hq₀mem.1, hq₀mem.2, hq₀opt⟩
      refine ⟨q, List.mem_append_left _ (mem_absentNamed.mpr ⟨hqps, hqnone⟩),
        hqopt, ?_⟩
      simp [resolveArgs, herr, Bind.bind, Except.bind]
    · push_neg at hn
      have hnamedopt : ∀ q ∈ absentNamed decl.namedParams raw.named,
          q.isOptional = true := by
        intro q hq
        cases h : q.isOptional with
        | false => exact absurd h (hn q hq)
        | true => rfl
      obtain ⟨out₁, hout₁, -⟩ :=
        resolveNamed_ok decl.namedParams raw.named hpn'
          (fun r hr hlr =>
            have hmem := mem_absentNamed.mpr ⟨hr, hlr⟩
            ⟨hnamedopt r hmem,
             hdef' r (List.mem_append_left _ hmem) (hnamedopt r hmem)⟩)
      have hp₀pos : p₀ ∈
          absentPositionals decl.positionalParams raw.positional := by
        rcases List.mem_append.mp hp₀ with h | h
        · rw [hnamedopt p₀ h] at hp₀req'; cases hp₀req'
        · exact h
      obtain ⟨q, hq, hqopt, herr⟩ :=
        resolvePositional_err decl.positionalParams raw.positional hpp'
          (fun r hr hro => hdef' r (List.mem_append_right _ hr) hro)
          ⟨p₀, hp₀pos, hp₀req'⟩
      refine ⟨q, List.mem_append_right _ hq, hqopt, ?_⟩
      simp [resolveArgs, hout₁, herr, Bind.bind, Except.bind]
  · intro hall
    have hall' : ∀ p ∈ absentParams decl raw, p.isOptional = true :=
      List.all_eq_true.mp hall
    obtain ⟨out₁, hout₁, hmem₁⟩ :=
      resolveNamed_ok decl.namedParams raw.named hpn'
        (fun r hr hlr =>
          have hmem := List.mem_append_left
            (absentPositionals decl.positionalParams raw.positional)
            (mem_absentNamed.mpr ⟨hr, hlr⟩)
          ⟨hall' r hmem, hdef' r hmem (hall' r hmem)⟩)
    obtain ⟨out₂, hout₂, hmem₂⟩ :=
      resolvePositional_ok decl.positionalParams raw.positional hpp'
        (fun r hr =>
          have hmem := List.mem_append_right
            (absentNamed decl.namedParams raw.named) hr
          ⟨hall' r hmem, hdef' r hmem (hall' r hmem)⟩)
    refine ⟨out₁ ++ out₂, ?_, ?_⟩
    · simp [resolveArgs, hout₁, hout₂, Bind.bind, Except.bind]
    · intro p hp d hd
      rcases List.mem_append.mp hp with h | h
      · exact List.mem_append_left _
          (hmem₁ p (mem_absentNamed.mp h).1 (mem_absentNamed.mp h).2 d hd)
      · exact List.mem_append_right _ (hmem₂ p h d hd)

/-- Witness for C6 on a schema with one required and one optional named
parameter, both absent from the raw arguments. -/
theorem resolution_missing_required_and_defaults_witness :
    ((absentParams declW2 ⟨[], []⟩).any (fun p => !p.isOptional) = true →
      ∃ q, q ∈ absentParams declW2 ⟨[], []⟩ ∧ q.isOptional = false ∧
        resolveArgs declW2 ⟨[], []⟩ =
          Except.error (RSError.missingRequiredArgument q.name)) ∧
    ((absentParams declW2 ⟨[], []⟩).all (fun p => p.isOptional) = true →
      ∃ out, resolveArgs declW2 ⟨[], []⟩ = Except.ok out ∧
        ∀ p ∈ absentParams declW2 ⟨[], []⟩, ∀ d, p.defaultValue = some d →
          (p.name, d) ∈ out) :=
  resolution_missing_required_and_defaults declW2 ⟨[], []⟩ rfl rfl rfl

end Redspot
